import Mathlib

/-!
Verification of the survival-analysis core specified for this repository:
the negative log partial likelihood (loss evaluator) and Harrell's
concordance index (concordance scorer), together with the sorting and
full-batch training invariants of the example script
`examples/01_using_deepsurvk.py`.

The repository ships only the example script; the bodies of
`deepsurvk.negative_log_likelihood` and `deepsurvk.concordance_index` are
not part of the given sources, so those two functions are modelled from
the specification text.  The sorting step (`sort_idx`) and the `fit`
invocation are embedded from the example script itself.
-/

namespace DeepSurvK

/-! ## Concordance scorer -/

/-- Modelled from the spec: comparability of an unordered patient pair for
`deepsurvk.concordance_index` (whose implementation is not among the given
sources).  "A pair is comparable iff the one with the shorter time had an
observed event"; pairs with equal times are left out (the spec leaves the
tie policy open and defines comparability only through `time_i < time_j`). -/
def comparablePair {n : ℕ} (time : Fin n → ℚ) (event : Fin n → Bool)
    (i j : Fin n) : Prop :=
  (time i < time j ∧ event i = true) ∨ (time j < time i ∧ event j = true)

instance {n : ℕ} (time : Fin n → ℚ) (event : Fin n → Bool) (i j : Fin n) :
    Decidable (comparablePair time event i j) := by
  unfold comparablePair; infer_instance

/-- Modelled from the spec: a comparable pair is concordant iff the patient
with the shorter observed time has the strictly higher risk-proxy value. -/
def concordantPair {n : ℕ} (time risk : Fin n → ℚ) (i j : Fin n) : Prop :=
  (time i < time j ∧ risk j < risk i) ∨ (time j < time i ∧ risk i < risk j)

instance {n : ℕ} (time risk : Fin n → ℚ) (i j : Fin n) :
    Decidable (concordantPair time risk i j) := by
  unfold concordantPair; infer_instance

/-- Modelled from the spec: a comparable pair is discordant iff the patient
with the shorter observed time has the strictly lower risk-proxy value. -/
def discordantPair {n : ℕ} (time risk : Fin n → ℚ) (i j : Fin n) : Prop :=
  (time i < time j ∧ risk i < risk j) ∨ (time j < time i ∧ risk j < risk i)

instance {n : ℕ} (time risk : Fin n → ℚ) (i j : Fin n) :
    Decidable (discordantPair time risk i j) := by
  unfold discordantPair; infer_instance

/-- All unordered index pairs, represented by ordered pairs `(i, j)` with
`i < j` (step 1 of the spec's algorithm: enumerate all unordered pairs). -/
def allPairs (n : ℕ) : Finset (Fin n × Fin n) :=
  Finset.univ.filter fun p => p.1 < p.2

/-- Modelled from the spec: the comparable pairs of the cohort. -/
def comparablePairs {n : ℕ} (time : Fin n → ℚ) (event : Fin n → Bool) :
    Finset (Fin n × Fin n) :=
  (allPairs n).filter fun p => comparablePair time event p.1 p.2

/-- Modelled from the spec: the concordant comparable pairs. -/
def concordantPairs {n : ℕ} (time risk : Fin n → ℚ) (event : Fin n → Bool) :
    Finset (Fin n × Fin n) :=
  (comparablePairs time event).filter fun p => concordantPair time risk p.1 p.2

/-- Modelled from the spec: the comparable pairs whose predicted risk-proxy
values are equal (counted with half credit). -/
def tiedPairs {n : ℕ} (time risk : Fin n → ℚ) (event : Fin n → Bool) :
    Finset (Fin n × Fin n) :=
  (comparablePairs time event).filter fun p => risk p.1 = risk p.2

/-- Modelled from the spec: the discordant comparable pairs. -/
def discordantPairs {n : ℕ} (time risk : Fin n → ℚ) (event : Fin n → Bool) :
    Finset (Fin n × Fin n) :=
  (comparablePairs time event).filter fun p => discordantPair time risk p.1 p.2

/-- Modelled from the spec: `deepsurvk.concordance_index` (implementation not
among the given sources).  Result = (concordant + 0.5 × tied) /
comparable_pairs_total; with no comparable pairs the result is the distinct
"undefined result" signal, here `none`. -/
def concordance_index {n : ℕ} (time risk : Fin n → ℚ) (event : Fin n → Bool) :
    Option ℚ :=
  if (comparablePairs time event).card = 0 then none
  else some
    ((((concordantPairs time risk event).card : ℚ)
        + ((tiedPairs time risk event).card : ℚ) / 2)
      / ((comparablePairs time event).card : ℚ))

/-- A comparable pair has strictly ordered times (one way or the other). -/
lemma comparablePair.time_lt_or_lt {n : ℕ} {time : Fin n → ℚ}
    {event : Fin n → Bool} {i j : Fin n} (h : comparablePair time event i j) :
    time i < time j ∨ time j < time i := by
  rcases h with ⟨h1, _⟩ | ⟨h1, _⟩
  · exact Or.inl h1
  · exact Or.inr h1

/-- On a comparable pair, "not concordant" splits into "risk values tied"
or "discordant". -/
lemma not_concordant_iff {n : ℕ} {time risk : Fin n → ℚ}
    {event : Fin n → Bool} {i j : Fin n} (h : comparablePair time event i j) :
    ¬ concordantPair time risk i j
      ↔ (risk i = risk j ∨ discordantPair time risk i j) := by
  rcases h.time_lt_or_lt with ht | ht
  · have hns : ¬ time j < time i := lt_asymm ht
    simp only [concordantPair, discordantPair, ht, hns, true_and, false_and,
      or_false]
    rw [not_lt, le_iff_lt_or_eq, or_comm]
  · have hns : ¬ time i < time j := lt_asymm ht
    simp only [concordantPair, discordantPair, ht, hns, true_and, false_and,
      false_or]
    rw [not_lt, le_iff_lt_or_eq, or_comm, eq_comm]

/-- Concordant, tied and discordant pairs partition the comparable pairs. -/
lemma card_conc_add_tied_add_disc {n : ℕ} (time risk : Fin n → ℚ)
    (event : Fin n → Bool) :
    (concordantPairs time risk event).card + (tiedPairs time risk event).card
        + (discordantPairs time risk event).card
      = (comparablePairs time event).card := by
  classical
  have h1 : ((comparablePairs time event).filter
        fun q => concordantPair time risk q.1 q.2).card
      + ((comparablePairs time event).filter
        fun q => ¬ concordantPair time risk q.1 q.2).card
      = (comparablePairs time event).card :=
    Finset.filter_card_add_filter_neg_card_eq_card _
  have h2 : (comparablePairs time event).filter
        (fun q => ¬ concordantPair time risk q.1 q.2)
      = tiedPairs time risk event ∪ discordantPairs time risk event := by
    rw [tiedPairs, discordantPairs, ← Finset.filter_or]
    refine Finset.filter_congr fun q hq => ?_
    have hcmp : comparablePair time event q.1 q.2 :=
      (Finset.mem_filter.mp hq).2
    exact not_concordant_iff hcmp
  have h3 : Disjoint (tiedPairs time risk event)
      (discordantPairs time risk event) := by
    rw [Finset.disjoint_left]
    intro q hq hq'
    have heq : risk q.1 = risk q.2 := (Finset.mem_filter.mp hq).2
    have hd : discordantPair time risk q.1 q.2 := (Finset.mem_filter.mp hq').2
    rcases hd with ⟨_, hlt⟩ | ⟨_, hlt⟩
    · exact absurd heq (ne_of_lt hlt)
    · exact absurd heq (ne_of_gt hlt)
  have h4 : (tiedPairs time risk event ∪ discordantPairs time risk event).card
      = (tiedPairs time risk event).card
        + (discordantPairs time risk event).card :=
    Finset.card_union_of_disjoint h3
  have h5 : (concordantPairs time risk event).card
      = ((comparablePairs time event).filter
        fun q => concordantPair time risk q.1 q.2).card := rfl
  rw [h2, h4] at h1
  rw [h5]
  omega

/-- Negating every risk-proxy value turns concordant pairs into the original
discordant pairs. -/
lemma concordantPairs_neg {n : ℕ} (time risk : Fin n → ℚ)
    (event : Fin n → Bool) :
    concordantPairs time (fun i => - risk i) event
      = discordantPairs time risk event := by
  rw [concordantPairs, discordantPairs]
  refine Finset.filter_congr fun q _ => ?_
  simp only [concordantPair, discordantPair, neg_lt_neg_iff]

/-- Negating every risk-proxy value leaves tied pairs tied. -/
lemma tiedPairs_neg {n : ℕ} (time risk : Fin n → ℚ) (event : Fin n → Bool) :
    tiedPairs time (fun i => - risk i) event = tiedPairs time risk event := by
  rw [tiedPairs, tiedPairs]
  refine Finset.filter_congr fun q _ => ?_
  simp only [neg_inj]

/-- Claim C2: for every triple of equal-length sequences (time, risk-proxy,
event) with at least one comparable pair, the concordance scorer returns
(concordant + 0.5 × tied) / comparable_pairs_total, where a pair with
`time i < time j` is comparable iff `event i` is true, a comparable pair is
concordant iff the patient with the shorter time has the strictly higher
risk-proxy value, and pairs with equal risk-proxy values are tied with half
credit. -/
theorem cindex_formula {n : ℕ} (time risk : Fin n → ℚ) (event : Fin n → Bool)
    (h : 0 < (comparablePairs time event).card) :
    concordance_index time risk event
      = some ((((comparablePairs time event).filter
            fun q => concordantPair time risk q.1 q.2).card
          + (((comparablePairs time event).filter
            fun q => risk q.1 = risk q.2).card : ℚ) / 2)
        / ((comparablePairs time event).card : ℚ)) := by
  rw [concordance_index, if_neg h.ne']
  rfl

/-- Witness for C2 on a concrete two-patient cohort. -/
theorem cindex_formula_witness :
    0 < (comparablePairs ![(2:ℚ), 1] ![true, true]).card ∧
    concordance_index ![(2:ℚ), 1] ![(1:ℚ), 2] ![true, true]
      = some ((((comparablePairs ![(2:ℚ), 1] ![true, true]).filter
            fun q => concordantPair ![(2:ℚ), 1] ![(1:ℚ), 2] q.1 q.2).card
          + (((comparablePairs ![(2:ℚ), 1] ![true, true]).filter
            fun q => (![(1:ℚ), 2]) q.1 = (![(1:ℚ), 2]) q.2).card : ℚ) / 2)
        / ((comparablePairs ![(2:ℚ), 1] ![true, true]).card : ℚ)) :=
  ⟨by decide, cindex_formula ![(2:ℚ), 1] ![(1:ℚ), 2] ![true, true] (by decide)⟩

/-- Claim C4: with zero comparable pairs (e.g. a single-patient cohort, or an
all-censored cohort) the concordance scorer reports the distinct
"undefined result" signal `none`, never a numeric 0 or 1. -/
theorem cindex_no_comparable_pairs {n : ℕ} (time risk : Fin n → ℚ)
    (event : Fin n → Bool) (h : (comparablePairs time event).card = 0) :
    concordance_index time risk event = none := by
  rw [concordance_index, if_pos h]

/-- Witness for C4 on a single-patient cohort. -/
theorem cindex_no_comparable_pairs_witness :
    (comparablePairs ![(7:ℚ)] ![true]).card = 0 ∧
    concordance_index ![(7:ℚ)] ![(5:ℚ)] ![true] = none :=
  ⟨by decide, cindex_no_comparable_pairs ![(7:ℚ)] ![(5:ℚ)] ![true] (by decide)⟩

/-- Claim C5: for every cohort with at least one comparable pair, the value
returned by the concordance scorer lies in the closed interval [0, 1]. -/
theorem cindex_mem_unit_interval {n : ℕ} (time risk : Fin n → ℚ)
    (event : Fin n → Bool) (h : 0 < (comparablePairs time event).card) :
    ∃ x : ℚ, concordance_index time risk event = some x ∧ 0 ≤ x ∧ x ≤ 1 := by
  rw [concordance_index, if_neg h.ne']
  refine ⟨_, rfl, ?_, ?_⟩
  · have h2 : (0:ℚ) ≤ ((concordantPairs time risk event).card : ℚ)
        + ((tiedPairs time risk event).card : ℚ) / 2 := by positivity
    have h3 : (0:ℚ) ≤ ((comparablePairs time event).card : ℚ) := by positivity
    exact div_nonneg h2 h3
  · rw [div_le_one (by exact_mod_cast h)]
    have hpart := card_conc_add_tied_add_disc time risk event
    have hq : ((concordantPairs time risk event).card : ℚ)
        + ((tiedPairs time risk event).card : ℚ)
        + ((discordantPairs time risk event).card : ℚ)
        = ((comparablePairs time event).card : ℚ) := by exact_mod_cast hpart
    have ht0 : (0:ℚ) ≤ ((tiedPairs time risk event).card : ℚ) := by positivity
    have hd0 : (0:ℚ) ≤ ((discordantPairs time risk event).card : ℚ) := by
      positivity
    linarith

/-- Witness for C5 on a concrete two-patient cohort. -/
theorem cindex_mem_unit_interval_witness :
    0 < (comparablePairs ![(2:ℚ), 1] ![true, true]).card ∧
    ∃ x : ℚ, concordance_index ![(2:ℚ), 1] ![(1:ℚ), 2] ![true, true] = some x
      ∧ 0 ≤ x ∧ x ≤ 1 :=
  ⟨by decide,
    cindex_mem_unit_interval ![(2:ℚ), 1] ![(1:ℚ), 2] ![true, true] (by decide)⟩

/-- Claim C6: for every cohort with at least one comparable pair, negating
every risk-proxy value while holding time and event fixed yields 1 minus the
original concordance index (concordant and discordant pairs swap roles, tied
pairs stay tied). -/
theorem cindex_risk_negation {n : ℕ} (time risk : Fin n → ℚ)
    (event : Fin n → Bool) (h : 0 < (comparablePairs time event).card) :
    concordance_index time (fun i => - risk i) event
      = (concordance_index time risk event).map fun x => 1 - x := by
  have hne : ¬ (comparablePairs time event).card = 0 := h.ne'
  rw [concordance_index, concordance_index, if_neg hne, if_neg hne,
    concordantPairs_neg, tiedPairs_neg, Option.map_some']
  congr 1
  have hpart := card_conc_add_tied_add_disc time risk event
  have hq : ((concordantPairs time risk event).card : ℚ)
      + ((tiedPairs time risk event).card : ℚ)
      + ((discordantPairs time risk event).card : ℚ)
      = ((comparablePairs time event).card : ℚ) := by exact_mod_cast hpart
  have hm0 : ((comparablePairs time event).card : ℚ) ≠ 0 := by
    exact_mod_cast hne
  field_simp
  linarith

/-- Witness for C6 on a concrete two-patient cohort. -/
theorem cindex_risk_negation_witness :
    0 < (comparablePairs ![(2:ℚ), 1] ![true, true]).card ∧
    concordance_index ![(2:ℚ), 1] (fun i => - (![(1:ℚ), 2]) i) ![true, true]
      = (concordance_index ![(2:ℚ), 1] ![(1:ℚ), 2] ![true, true]).map
          fun x => 1 - x :=
  ⟨by decide,
    cindex_risk_negation ![(2:ℚ), 1] ![(1:ℚ), 2] ![true, true] (by decide)⟩

/-! ## Loss evaluator (negative log partial likelihood) -/

/-- Modelled from the spec: the cumulative risk-set sum of
`deepsurvk.negative_log_likelihood` (implementation not among the given
sources).  For a cohort pre-sorted by descending survival time, the risk set
of patient `i` is `{j : j ≤ i}`, so the denominator inside the logarithm is
the cumulative sum of `exp (risk j)` over `j ≤ i`. -/
noncomputable def cumulativeRiskSum {n : ℕ} (risk : Fin n → ℝ) (i : Fin n) :
    ℝ :=
  ∑ j ∈ Finset.Iic i, Real.exp (risk j)

/-- Number of observed events in the cohort. -/
def eventCount {n : ℕ} (event : Fin n → Bool) : ℕ :=
  (Finset.univ.filter fun i => event i = true).card

/-- Modelled from the spec: the per-patient likelihood term
`event_i * (risk_i - log (sum_{j <= i} exp risk_j))`; censored patients
contribute nothing to the numerator sum. -/
noncomputable def lossTerm {n : ℕ} (event : Fin n → Bool) (risk : Fin n → ℝ)
    (i : Fin n) : ℝ :=
  if event i = true then risk i - Real.log (cumulativeRiskSum risk i) else 0

/-- Modelled from the spec: `deepsurvk.negative_log_likelihood`
(implementation not among the given sources).  The event indicators are the
parameter bound in first; the result on the risk predictions is
`- sum_i [event_i * (risk_i - log (sum_{j <= i} exp risk_j))] / sum_i event_i`,
and with zero events the result is the distinct "undefined result" signal
`none` (a precondition violation per the spec, not a silent 0, 1 or NaN). -/
noncomputable def negative_log_likelihood {n : ℕ} (event : Fin n → Bool)
    (risk : Fin n → ℝ) : Option ℝ :=
  if eventCount event = 0 then none
  else some (- (∑ i, lossTerm event risk i) / (eventCount event : ℝ))

/-- Claim C1: with at least one observed event, the loss evaluator returns
exactly `-(sum_i event_i * (risk_i - log (sum_{j <= i} exp risk_j))) / #events`;
in particular, for Scenario A (risks 2.0, 1.0, 0.5 and events 1, 1, 0 in
descending-time order) the loss is
`-((2 - log (exp 2)) + (1 - log (exp 2 + exp 1))) / 2`. -/
theorem nll_formula {n : ℕ} (event : Fin n → Bool) (risk : Fin n → ℝ)
    (h : ∃ i, event i = true) :
    negative_log_likelihood event risk
      = some (- (∑ i, (if event i = true then (1:ℝ) else 0)
            * (risk i - Real.log (∑ j ∈ Finset.Iic i, Real.exp (risk j))))
          / (∑ i, if event i = true then (1:ℝ) else 0))
    ∧ negative_log_likelihood ![true, true, false] ![(2:ℝ), 1, 1/2]
      = some (- ((2 - Real.log (Real.exp 2))
          + (1 - Real.log (Real.exp 2 + Real.exp 1))) / 2) := by
  constructor
  · obtain ⟨i0, hi0⟩ := h
    have hmem : i0 ∈ Finset.univ.filter fun i => event i = true := by
      simp [hi0]
    have hc : eventCount event ≠ 0 :=
      Finset.card_ne_zero_of_mem hmem
    rw [negative_log_likelihood, if_neg hc]
    have hnum : (∑ i, lossTerm event risk i)
        = ∑ i, (if event i = true then (1:ℝ) else 0)
            * (risk i - Real.log (∑ j ∈ Finset.Iic i, Real.exp (risk j))) := by
      refine Finset.sum_congr rfl fun i _ => ?_
      by_cases hi : event i = true
      · simp [lossTerm, cumulativeRiskSum, hi]
      · simp [lossTerm, hi]
    have hden : ((eventCount event : ℝ))
        = ∑ i, if event i = true then (1:ℝ) else 0 := by
      rw [eventCount, Finset.sum_boole]
    rw [hnum, hden]
  · have hc3 : ¬ eventCount ![true, true, false] = 0 := by decide
    have hc2 : eventCount ![true, true, false] = 2 := by decide
    have h0 : Finset.Iic (0 : Fin 3) = {0} := by decide
    have h1 : Finset.Iic (1 : Fin 3) = ({0, 1} : Finset (Fin 3)) := by decide
    have hne01 : (0 : Fin 3) ≠ 1 := by decide
    rw [negative_log_likelihood, if_neg hc3, hc2]
    congr 1
    rw [Fin.sum_univ_three]
    simp only [lossTerm, cumulativeRiskSum, h0, h1, Finset.sum_singleton,
      Finset.sum_pair hne01, Matrix.cons_val_zero, Matrix.cons_val_one,
      Matrix.head_cons, Matrix.cons_val_two, Matrix.tail_cons]
    norm_num

/-- Witness for C1: Scenario A itself discharges the at-least-one-event
hypothesis. -/
theorem nll_formula_witness :
    (∃ i, (![true, true, false]) i = true) ∧
    (negative_log_likelihood ![true, true, false] ![(2:ℝ), 1, 1/2]
        = some (- (∑ i, (if (![true, true, false]) i = true then (1:ℝ) else 0)
              * ((![(2:ℝ), 1, 1/2]) i
                - Real.log (∑ j ∈ Finset.Iic i, Real.exp ((![(2:ℝ), 1, 1/2]) j))))
            / (∑ i, if (![true, true, false]) i = true then (1:ℝ) else 0))
      ∧ negative_log_likelihood ![true, true, false] ![(2:ℝ), 1, 1/2]
        = some (- ((2 - Real.log (Real.exp 2))
            + (1 - Real.log (Real.exp 2 + Real.exp 1))) / 2)) :=
  ⟨by decide, nll_formula ![true, true, false] ![(2:ℝ), 1, 1/2] (by decide)⟩

/-- Claim C3: on an all-censored cohort (every event indicator false) the
loss evaluator yields the distinct "undefined result" signal `none` rather
than a silently coerced number. -/
theorem nll_all_censored {n : ℕ} (event : Fin n → Bool) (risk : Fin n → ℝ)
    (h : ∀ i, event i = false) :
    negative_log_likelihood event risk = none := by
  have hc : eventCount event = 0 := by
    rw [eventCount, Finset.card_eq_zero]
    ext i
    simp [h i]
  rw [negative_log_likelihood, if_pos hc]

/-- Witness for C3 on a concrete all-censored cohort. -/
theorem nll_all_censored_witness :
    (∀ i, (![false, false]) i = false) ∧
    negative_log_likelihood ![false, false] ![(3:ℝ), 1] = none :=
  ⟨by decide, nll_all_censored ![false, false] ![(3:ℝ), 1] (by decide)⟩

/-- The per-patient term of a two-patient cohort rewrites to
`-log (exp (b - a) + 1)`, which is strictly monotone in `a`. -/
lemma sub_log_sum_exp_strictMono (b : ℝ) :
    StrictMono fun a : ℝ => a - Real.log (Real.exp b + Real.exp a) := by
  have key : ∀ x : ℝ, x - Real.log (Real.exp b + Real.exp x)
      = - Real.log (Real.exp (b - x) + 1) := by
    intro x
    have hpos : (0:ℝ) < Real.exp (b - x) + 1 := by positivity
    have hx : x + (b - x) = b := by ring
    have hsplit : Real.exp b + Real.exp x
        = Real.exp x * (Real.exp (b - x) + 1) := by
      rw [mul_add, mul_one, ← Real.exp_add, hx]
    rw [hsplit, Real.log_mul (Real.exp_ne_zero x) (ne_of_gt hpos),
      Real.log_exp]
    ring
  intro a a' hlt
  simp only
  rw [key a, key a']
  have h1 : Real.exp (b - a') + 1 < Real.exp (b - a) + 1 := by
    have := Real.exp_lt_exp.mpr (by linarith : b - a' < b - a)
    linarith
  have h2 : (0:ℝ) < Real.exp (b - a') + 1 := by positivity
  have := Real.log_lt_log h2 h1
  linarith

/-- Claim C7: in a two-patient cohort sorted by descending time with both
events observed, increasing the risk of the patient who fails first (the
shorter time, stored last in descending order — "patient 1" in the usual
time-ascending numbering of Cox partial likelihoods) relative to the other
patient's fixed risk `b` strictly decreases the loss contribution of that
patient's likelihood term.  (The longer-surviving patient's own term is
identically `risk - log (exp risk) = 0`, so this is the only term through
which the claim's strict decrease can be read.) -/
theorem loss_term_monotone (b a a' : ℝ) (h : a < a') :
    - lossTerm ![true, true] ![b, a'] 1 / 2
      < - lossTerm ![true, true] ![b, a] 1 / 2 := by
  have hIic : Finset.Iic (1 : Fin 2) = ({0, 1} : Finset (Fin 2)) := by decide
  have hne01 : (0 : Fin 2) ≠ 1 := by decide
  have e1 : lossTerm ![true, true] ![b, a] 1
      = a - Real.log (Real.exp b + Real.exp a) := by
    simp [lossTerm, cumulativeRiskSum, hIic, Finset.sum_pair hne01]
  have e2 : lossTerm ![true, true] ![b, a'] 1
      = a' - Real.log (Real.exp b + Real.exp a') := by
    simp [lossTerm, cumulativeRiskSum, hIic, Finset.sum_pair hne01]
  rw [e1, e2]
  have := sub_log_sum_exp_strictMono b h
  simp only at this
  linarith

/-- Witness for C7 at concrete risks. -/
theorem loss_term_monotone_witness :
    (0:ℝ) < 1 ∧
    - lossTerm ![true, true] ![(0:ℝ), 1] 1 / 2
      < - lossTerm ![true, true] ![(0:ℝ), 0] 1 / 2 :=
  ⟨by norm_num, loss_term_monotone 0 0 1 (by norm_num)⟩

/-- Every per-patient likelihood term is nonpositive: the risk set of
patient `i` contains `i` itself, so the log-sum-exp dominates `risk i`. -/
lemma lossTerm_nonpos {n : ℕ} (event : Fin n → Bool) (risk : Fin n → ℝ)
    (i : Fin n) : lossTerm event risk i ≤ 0 := by
  rw [lossTerm]
  by_cases hi : event i = true
  · rw [if_pos hi]
    have hmem : i ∈ Finset.Iic i := Finset.mem_Iic.mpr le_rfl
    have hle : Real.exp (risk i) ≤ cumulativeRiskSum risk i := by
      rw [cumulativeRiskSum]
      exact Finset.single_le_sum (fun j _ => (Real.exp_pos (risk j)).le) hmem
    have hlog := Real.log_le_log (Real.exp_pos (risk i)) hle
    rw [Real.log_exp] at hlog
    linarith
  · rw [if_neg hi]

/-- Whenever the loss evaluator produces a value, that value is nonnegative:
each Cox partial-likelihood factor is a probability in `(0, 1]`. -/
lemma nll_some_nonneg {n : ℕ} {event : Fin n → Bool} {risk : Fin n → ℝ}
    {v : ℝ} (h : negative_log_likelihood event risk = some v) : 0 ≤ v := by
  rw [negative_log_likelihood] at h
  by_cases hc : eventCount event = 0
  · rw [if_pos hc] at h
    exact absurd h (by simp)
  · rw [if_neg hc] at h
    have hv : - (∑ i, lossTerm event risk i) / (eventCount event : ℝ) = v :=
      Option.some.inj h
    have hsum : (∑ i, lossTerm event risk i) ≤ 0 :=
      Finset.sum_nonpos fun i _ => lossTerm_nonpos event risk i
    have hcpos : (0:ℝ) < (eventCount event : ℝ) := by
      exact_mod_cast Nat.pos_of_ne_zero hc
    rw [← hv]
    apply div_nonneg _ hcpos.le
    linarith

/-- Claim C8 is false: no valid input yields a strictly negative loss. -/
theorem loss_never_negative :
    ¬ ∃ (n : ℕ) (event : Fin n → Bool) (risk : Fin n → ℝ) (v : ℝ),
        negative_log_likelihood event risk = some v ∧ v < 0 := by
  rintro ⟨n, event, risk, v, hv, hneg⟩
  exact absurd (nll_some_nonneg hv) (not_le.mpr hneg)

/-- Claim C8 (amended): the loss returned on every valid input (a cohort with
at least one event) is nonnegative — non-negativity IS guaranteed, contrary to
the claim; the loss is a sum of negated log-probabilities of cumulative risk
sets, each factor lying in `(0, 1]`. -/
theorem loss_nonneg_on_valid_input {n : ℕ} (event : Fin n → Bool)
    (risk : Fin n → ℝ) (v : ℝ)
    (h : negative_log_likelihood event risk = some v) : 0 ≤ v :=
  nll_some_nonneg h

/-- Witness for the amended C8: a single-patient cohort with an event has
loss exactly 0, which is nonnegative. -/
theorem loss_nonneg_on_valid_input_witness :
    negative_log_likelihood ![true] ![(0:ℝ)] = some 0 ∧ (0:ℝ) ≤ 0 := by
  have hIic : Finset.Iic (0 : Fin 1) = ({0} : Finset (Fin 1)) := by decide
  have heval : negative_log_likelihood ![true] ![(0:ℝ)] = some 0 := by
    rw [negative_log_likelihood, if_neg (by decide)]
    have hc1 : eventCount ![true] = 1 := by decide
    rw [hc1, Fin.sum_univ_one]
    simp [lossTerm, cumulativeRiskSum, hIic]
  exact ⟨heval, loss_nonneg_on_valid_input ![true] ![(0:ℝ)] 0 heval⟩

/-! ## Sorting step of the example script

`examples/01_using_deepsurvk.py`, lines 100-103:
```
sort_idx = np.argsort(Y_train)[::-1]
X_train = X_train[sort_idx]
Y_train = Y_train[sort_idx]
E_train = E_train[sort_idx]
```
-/

/-- `np.argsort(Y)`: a list of indices of `Y` arranged so that reading `Y` at
those indices is ascending.  NumPy's default sort breaks ties arbitrarily;
here a stable insertion sort stands in for it (the spec allows any consistent
tie-break). -/
def argsortAsc (Y : List ℚ) : List ℕ :=
  List.insertionSort (fun i j => Y.getD i 0 ≤ Y.getD j 0) (List.range Y.length)

/-- `sort_idx = np.argsort(Y_train)[::-1]` (line 100): the ascending argsort,
reversed, i.e. the indices of the training times in descending order. -/
def sort_idx (Y : List ℚ) : List ℕ := (argsortAsc Y).reverse

/-- NumPy fancy indexing `xs[idx]` (lines 101-103): element `k` of the result
is `xs[idx[k]]`. -/
def fancyIndex {α : Type} (idx : List ℕ) (d : α) (xs : List α) : List α :=
  idx.map fun i => xs.getD i d

lemma argsortAsc_perm (Y : List ℚ) :
    List.Perm (argsortAsc Y) (List.range Y.length) :=
  List.perm_insertionSort _ _

lemma sort_idx_perm (Y : List ℚ) :
    List.Perm (sort_idx Y) (List.range Y.length) :=
  (List.reverse_perm _).trans (argsortAsc_perm Y)

lemma sort_idx_length (Y : List ℚ) : (sort_idx Y).length = Y.length := by
  rw [(sort_idx_perm Y).length_eq, List.length_range]

lemma sort_idx_mem_lt {Y : List ℚ} {i : ℕ} (h : i ∈ sort_idx Y) :
    i < Y.length :=
  List.mem_range.mp ((sort_idx_perm Y).mem_iff.mp h)

lemma fancyIndex_getD {α : Type} (idx : List ℕ) (d : α) (xs : List α)
    (k : ℕ) (hk : k < idx.length) :
    (fancyIndex idx d xs).getD k d = xs.getD (idx.getD k 0) d := by
  rw [fancyIndex, List.getD_eq_getElem _ _ (by simpa using hk),
    List.getElem_map, List.getD_eq_getElem _ _ hk]

/-- The reversed argsort indices read the times off in descending order. -/
lemma sort_idx_sorted (Y : List ℚ) :
    List.Pairwise (fun i j => Y.getD j 0 ≤ Y.getD i 0) (sort_idx Y) := by
  have hs : List.Sorted (fun i j => Y.getD i 0 ≤ Y.getD j 0) (argsortAsc Y) := by
    haveI : IsTotal ℕ fun i j => Y.getD i 0 ≤ Y.getD j 0 :=
      ⟨fun a b => le_total _ _⟩
    haveI : IsTrans ℕ fun i j => Y.getD i 0 ≤ Y.getD j 0 :=
      ⟨fun a b c hab hbc => le_trans hab hbc⟩
    exact List.sorted_insertionSort _ _
  rw [sort_idx]
  exact List.pairwise_reverse.mpr hs

/-- The gathered time vector is descending. -/
lemma fancyIndex_sorted (Y : List ℚ) :
    List.Pairwise (fun x y : ℚ => y ≤ x) (fancyIndex (sort_idx Y) 0 Y) := by
  rw [fancyIndex]
  exact (sort_idx_sorted Y).map _ fun a b h => h

/-- Claim C9: the sorting step applies one and the same permutation
`sort_idx` (the indices of the training times in descending order) to the
feature matrix, the time vector and the event vector: after sorting, the
k-th feature row, time and event indicator all come from one original
patient index `i`, and the sorted time vector is descending. -/
theorem sorting_alignment {α : Type} (X : List α) (dX : α) (Y : List ℚ)
    (E : List Bool) (_hX : X.length = Y.length) (_hE : E.length = Y.length) :
    (∀ k, k < Y.length → ∃ i, i < Y.length
      ∧ (fancyIndex (sort_idx Y) dX X).getD k dX = X.getD i dX
      ∧ (fancyIndex (sort_idx Y) 0 Y).getD k 0 = Y.getD i 0
      ∧ (fancyIndex (sort_idx Y) false E).getD k false = E.getD i false)
    ∧ (∀ k l, k < l → l < Y.length →
      (fancyIndex (sort_idx Y) 0 Y).getD l 0
        ≤ (fancyIndex (sort_idx Y) 0 Y).getD k 0) := by
  constructor
  · intro k hk
    have hk' : k < (sort_idx Y).length := by
      rw [sort_idx_length]; exact hk
    refine ⟨(sort_idx Y).getD k 0, ?_, ?_, ?_, ?_⟩
    · apply sort_idx_mem_lt
      rw [List.getD_eq_getElem _ _ hk']
      exact List.getElem_mem _
    · exact fancyIndex_getD _ _ _ _ hk'
    · exact fancyIndex_getD _ _ _ _ hk'
    · exact fancyIndex_getD _ _ _ _ hk'
  · intro k l hkl hl
    have hp := fancyIndex_sorted Y
    rw [List.pairwise_iff_getElem] at hp
    have hlen : (fancyIndex (sort_idx Y) 0 Y).length = Y.length := by
      rw [fancyIndex, List.length_map, sort_idx_length]
    have hk : k < Y.length := lt_trans hkl hl
    have h1 : l < (fancyIndex (sort_idx Y) 0 Y).length := by
      rw [hlen]; exact hl
    have h2 : k < (fancyIndex (sort_idx Y) 0 Y).length := by
      rw [hlen]; exact hk
    have hle := hp k l h2 h1 hkl
    rw [List.getD_eq_getElem _ _ h1, List.getD_eq_getElem _ _ h2]
    exact hle

/-- Witness for C9 on a concrete three-patient cohort. -/
theorem sorting_alignment_witness :
    (([10, 20, 30] : List ℚ).length = ([1, 3, 2] : List ℚ).length) ∧
    (([true, false, true] : List Bool).length = ([1, 3, 2] : List ℚ).length) ∧
    ((∀ k, k < ([1, 3, 2] : List ℚ).length → ∃ i,
        i < ([1, 3, 2] : List ℚ).length
      ∧ (fancyIndex (sort_idx [1, 3, 2]) (0:ℚ) [10, 20, 30]).getD k 0
          = ([10, 20, 30] : List ℚ).getD i 0
      ∧ (fancyIndex (sort_idx [1, 3, 2]) 0 [1, 3, 2]).getD k 0
          = ([1, 3, 2] : List ℚ).getD i 0
      ∧ (fancyIndex (sort_idx [1, 3, 2]) false [true, false, true]).getD k false
          = ([true, false, true] : List Bool).getD i false)
    ∧ (∀ k l, k < l → l < ([1, 3, 2] : List ℚ).length →
      (fancyIndex (sort_idx [1, 3, 2]) (0:ℚ) [1, 3, 2]).getD l 0
        ≤ (fancyIndex (sort_idx [1, 3, 2]) (0:ℚ) [1, 3, 2]).getD k 0)) :=
  ⟨by decide, by decide,
    sorting_alignment [10, 20, 30] (0:ℚ) [1, 3, 2] [true, false, true]
      (by decide) (by decide)⟩

/-! ## Full-batch training invocation

`examples/01_using_deepsurvk.py`, lines 171-176:
```
history = dsk.fit(X_train, Y_train,
                  batch_size=n_patients_train,
                  epochs=epochs,
                  callbacks=callbacks,
                  shuffle=False)
```
-/

/-- Modelled from the spec: the external training harness partitions the
cohort into consecutive mini-batches of at most `b` rows, in order (the
framework's batching when shuffling is disabled). -/
def toBatches {α : Type} (b : ℕ) (l : List α) : List (List α) :=
  match l with
  | [] => []
  | x :: xs =>
    if _hb : b = 0 then [x :: xs]
    else (x :: xs).take b :: toBatches b ((x :: xs).drop b)
termination_by l.length
decreasing_by
  simp only [List.length_drop, List.length_cons]
  omega

/-- Modelled from the spec: the row indices each evaluation of the bound
loss receives during one epoch of `fit`; with `shuffle` disabled the rows
are taken in the dataset's stored order, otherwise in some permuted order
`perm` chosen by the framework. -/
def fitBatchIndices (n b : ℕ) (shuffle : Bool) (perm : List ℕ) :
    List (List ℕ) :=
  toBatches b (cond shuffle perm (List.range n))

/-- Modelled from the spec: the fit loop repeats the same deterministic
batch partition every epoch. -/
def trainingSchedule (epochs n b : ℕ) (shuffle : Bool) (perm : List ℕ) :
    List (List (List ℕ)) :=
  List.replicate epochs (fitBatchIndices n b shuffle perm)

lemma toBatches_nil {α : Type} (b : ℕ) : toBatches b ([] : List α) = [] := by
  rw [toBatches]

/-- Splitting a nonempty list into batches of its own length yields the one
full batch. -/
lemma toBatches_full {α : Type} (l : List α) (h : l ≠ []) :
    toBatches l.length l = [l] := by
  obtain ⟨x, xs, rfl⟩ := List.exists_cons_of_ne_nil h
  have hlen : ¬ (x :: xs).length = 0 := by
    simp
  rw [toBatches, dif_neg hlen, List.take_length, List.drop_length,
    toBatches_nil]

/-- Claim C10: the training invocation uses `batch_size = n_patients_train`
and `shuffle=False`, so every epoch consists of exactly one batch holding the
indices `0, ..., n-1` in order; reading the sorted time vector and the
captured event vector at that index batch returns them whole and in the
descending-time positional order established by the sorting step. -/
theorem full_batch_training (epochs : ℕ) (Y : List ℚ) (E : List Bool)
    (perm : List ℕ) (hY : Y ≠ []) (hE : E.length = Y.length) :
    trainingSchedule epochs Y.length Y.length false perm
        = List.replicate epochs [List.range Y.length]
      ∧ (List.range Y.length).map (fun i => Y.getD i 0) = Y
      ∧ (List.range Y.length).map (fun i => E.getD i false) = E := by
  refine ⟨?_, ?_, ?_⟩
  · rw [trainingSchedule, fitBatchIndices]
    have hr : (List.range Y.length) ≠ [] := by
      rw [ne_eq, List.range_eq_nil]
      intro h0
      exact hY (List.length_eq_zero.mp h0)
    have h1 := toBatches_full (List.range Y.length) hr
    rw [List.length_range] at h1
    rw [Bool.cond_false, h1]
  · apply List.ext_getElem
    · simp
    · intro i h1 h2
      simp only [List.getElem_map, List.getElem_range]
      exact List.getD_eq_getElem _ _ h2
  · apply List.ext_getElem
    · simp [hE]
    · intro i h1 h2
      simp only [List.getElem_map, List.getElem_range]
      exact List.getD_eq_getElem _ _ h2

/-- Witness for C10 on a concrete cohort. -/
theorem full_batch_training_witness :
    (([3, 1, 2] : List ℚ) ≠ []) ∧
    (([true, false, true] : List Bool).length = ([3, 1, 2] : List ℚ).length) ∧
    (trainingSchedule 2 ([3, 1, 2] : List ℚ).length
          ([3, 1, 2] : List ℚ).length false []
        = List.replicate 2 [List.range ([3, 1, 2] : List ℚ).length]
      ∧ (List.range ([3, 1, 2] : List ℚ).length).map
          (fun i => ([3, 1, 2] : List ℚ).getD i 0) = [3, 1, 2]
      ∧ (List.range ([3, 1, 2] : List ℚ).length).map
          (fun i => ([true, false, true] : List Bool).getD i false)
          = [true, false, true]) :=
  ⟨by decide, by decide,
    full_batch_training 2 [3, 1, 2] [true, false, true] []
      (by decide) (by decide)⟩

end DeepSurvK

section Scenarios

open DeepSurvK

-- Scenario B: risk-proxy strictly decreasing as time increases, all events.
example :
    concordance_index ![1, 2, 3] ![30, 20, 10] ![true, true, true]
      = some 1 := by
  have hm : (comparablePairs ![1, 2, 3] ![true, true, true]).card = 3 := by
    decide
  have hc : (concordantPairs ![1, 2, 3] ![30, 20, 10] ![true, true, true]).card
      = 3 := by decide
  have ht : (tiedPairs ![1, 2, 3] ![30, 20, 10] ![true, true, true]).card
      = 0 := by decide
  rw [concordance_index, hm, hc, ht]
  norm_num

-- Scenario C: all risk-proxy values identical.
example :
    concordance_index ![1, 2, 3] ![5, 5, 5] ![true, true, true]
      = some (1/2) := by
  have hm : (comparablePairs ![1, 2, 3] ![true, true, true]).card = 3 := by
    decide
  have hc : (concordantPairs ![1, 2, 3] ![5, 5, 5] ![true, true, true]).card
      = 0 := by decide
  have ht : (tiedPairs ![1, 2, 3] ![5, 5, 5] ![true, true, true]).card
      = 3 := by decide
  rw [concordance_index, hm, hc, ht]
  norm_num

-- degenerate: single patient
example :
    concordance_index ![1] ![5] ![true] = none := by decide

-- degenerate: all censored
example :
    concordance_index ![1, 2, 3] ![3, 2, 1] ![false, false, false]
      = none := by decide

end Scenarios
